import Mathlib

/-!
Shallow embedding of `src/provider/gitlab.rs` from the git-mirror
repository: the `GitLab` provider's `get_mirror_repos`, which fetches the
projects of a GitLab group page by page over HTTP and interprets each
project's free-text description as a mirror directive.

External collaborators of the source are modelled as data or parameters:

* the network is a function `server : Nat → ServerReply` giving, for each
  requested page number, either a transport failure or a response (status
  code, raw `X-Next-Page` header value, decoded JSON body);
* `serde_json::from_reader::<Vec<Project>>` is likewise part of the
  response model (`ServerReply.resp` carries the page body's decode
  result);
* `serde_yaml::from_str::<Desc>` is a parameter
  `dec : String → Except String Desc` of the interpretation phase;
* hyper's typed-header access `res.headers.get::<XNextPage>()`, which
  parses the raw header text with `u32::from_str` and yields `None` when
  the header is absent or its value does not parse, is modelled by
  `getXNextPage` together with `parseU32`.

Everything else (the loop structure, status handling, error messages,
accumulation and interpretation) is translated directly from the source.
-/

/-- Configuration of the provider: the Rust struct `GitLab`
(`url`, `group`, `use_http`, `private_token`). -/
structure GitLab where
  url : String
  group : String
  use_http : Bool
  private_token : Option String

/-- A structured description: the Rust struct `Desc`, decoded from a
project's description text. `origin` is required; `skip` carries
`#[serde(default)]`, so a decoder produces `false` when the key is absent. -/
structure Desc where
  origin : String
  skip : Bool
deriving DecidableEq

/-- A project from the GitLab API: the Rust struct `Project` with its four
required text fields. -/
structure Project where
  description : String
  web_url : String
  ssh_url_to_repo : String
  http_url_to_repo : String
deriving DecidableEq

/-- A mirror directive: the Rust struct `provider::Mirror` with fields
`origin` and `destination`. -/
structure Mirror where
  origin : String
  destination : String
deriving DecidableEq

deriving instance DecidableEq for Except

/-- One HTTP exchange as observed by the provider: either the transport
fails (`client.get(&url).send()` returns `Err` with a cause), or a response
arrives with a status code, an optional raw `X-Next-Page` header value, and
the result of decoding its body as `Vec<Project>`. -/
inductive ServerReply where
  | connFail (cause : String)
  | resp (status : Nat) (xNextPage : Option String) (body : Except String (List Project))
deriving DecidableEq

/-- The constant `PER_PAGE: u8 = 100` from the source. -/
def PER_PAGE : Nat := 100

/-- Value of an ASCII decimal digit, as used by Rust's
`u32::from_str` when converting each character. -/
def digitVal (c : Char) : Option Nat :=
  if '0' ≤ c ∧ c ≤ '9' then some (c.toNat - 48) else none

/-- Digit-accumulation loop of Rust's `u32::from_str`: consume decimal
digits left to right, failing on a non-digit or when the accumulated value
overflows the `u32` range. -/
def parseU32Digits : List Char → Nat → Option Nat
  | [], acc => some acc
  | c :: cs, acc =>
    match digitVal c with
    | none => none
    | some d =>
      let acc2 := acc * 10 + d
      if acc2 < 4294967296 then parseU32Digits cs acc2 else none

/-- Rust's `u32::from_str` on a header value: an optional leading `+`, then
at least one decimal digit, value below `2^32`; anything else fails. -/
def parseU32 (s : String) : Option Nat :=
  match s.data with
  | [] => none
  | '+' :: cs => if cs = [] then none else parseU32Digits cs 0
  | cs => parseU32Digits cs 0

/-- Models `res.headers.get::<XNextPage>()` for the typed header
`header! { (XNextPage, "X-Next-Page") => [u32] }`: `none` when the header
is absent, and also when its raw value is present but does not parse as a
`u32` (hyper's typed getter swallows the parse failure). -/
def getXNextPage (xNextPage : Option String) : Option Nat :=
  xNextPage.bind parseU32

/-- The request URL built each iteration:
`format!("{}/api/v4/groups/{}/projects?per_page={}&page={}", ...)`. -/
def pageUrl (cfg : GitLab) (page : Nat) : String :=
  cfg.url ++ "/api/v4/groups/" ++ cfg.group ++ "/projects?per_page=" ++
    toString PER_PAGE ++ "&page=" ++ toString page

/-- Canonical reason phrases of hyper's `StatusCode`, for the status codes
exercised in this development; other codes fall back to hyper's
`<unknown status code>` placeholder. -/
def canonicalReason (code : Nat) : Option String :=
  if code = 200 then some "OK"
  else if code = 401 then some "Unauthorized"
  else if code = 403 then some "Forbidden"
  else if code = 404 then some "Not Found"
  else if code = 500 then some "Internal Server Error"
  else none

/-- Models the `Display` instance of hyper's `StatusCode`:
`"<code> <canonical reason>"`. -/
def statusDisplay (code : Nat) : String :=
  toString code ++ " " ++ ((canonicalReason code).getD "<unknown status code>")

/-- Error text for a transport failure:
`format!("Unable to connect to: {} ({})", url, e)`. -/
def connectMsg (cfg : GitLab) (page : Nat) (cause : String) : String :=
  "Unable to connect to: " ++ pageUrl cfg page ++ " (" ++ cause ++ ")"

/-- Error text for a 401 response, with the remediation hint (the source's
string literal, including its `unautorized` spelling). -/
def unauthorizedMsg (cfg : GitLab) (page : Nat) : String :=
  "API call received unautorized (" ++ statusDisplay 401 ++ ") for: " ++
    pageUrl cfg page ++
    ". Please make sure the `GITLAB_PRIVATE_TOKEN` environment variable is set."

/-- Error text for any other non-200 response:
`format!("API call received invalid status ({}) for : {}", status, url)`. -/
def invalidStatusMsg (cfg : GitLab) (status page : Nat) : String :=
  "API call received invalid status (" ++ statusDisplay status ++ ") for : " ++
    pageUrl cfg page

/-- Error text for a page body that fails to decode:
`format!("Unable to parse response as JSON ({})", e)`. -/
def jsonErrMsg (cause : String) : String :=
  "Unable to parse response as JSON (" ++ cause ++ ")"

/-- The paginated fetch loop `for page in 1..u32::MAX { ... }` of
`get_mirror_repos`. `fuel` is the number of loop iterations still allowed
by the `for` range; exhausting it reproduces the source falling out of the
loop (no error). The first component records the page numbers actually
requested (one `client.get` per iteration); the second is the accumulated
project list or the first fatal error. Each iteration checks the status,
reads the `X-Next-Page` header, decodes the body, extends the accumulator,
and either stops (`break`) or continues with `page + 1`. -/
def fetchLoop (cfg : GitLab) (server : Nat → ServerReply)
    (page : Nat) (fuel : Nat) (acc : List Project) :
    List Nat × Except String (List Project) :=
  match fuel with
  | 0 => ([], .ok acc)
  | fuel + 1 =>
    match server page with
    | .connFail cause => ([page], .error (connectMsg cfg page cause))
    | .resp status xnp body =>
      if status = 200 then
        let has_next := (getXNextPage xnp).isSome
        match body with
        | .error e => ([page], .error (jsonErrMsg e))
        | .ok projects_page =>
          let acc2 := acc ++ projects_page
          if !has_next then ([page], .ok acc2)
          else
            let r := fetchLoop cfg server (page + 1) fuel acc2
            (page :: r.1, r.2)
      else if status = 401 then ([page], .error (unauthorizedMsg cfg page))
      else ([page], .error (invalidStatusMsg cfg status page))

/-- Number of iterations of `for page in 1..u32::MAX`: the range is
half-open, so pages 1 through `u32::MAX - 1`, i.e. `2^32 - 2` iterations. -/
def FETCH_FUEL : Nat := 4294967294

/-- The second loop of `get_mirror_repos`: interpret each fetched project's
description with the YAML decoder `dec` (modelling
`serde_yaml::from_str::<Desc>`), skipping projects whose description fails
to decode or decodes with `skip` set, and otherwise emitting a `Mirror`
whose destination is chosen by `use_http`. -/
def interpretProjects (use_http : Bool) (dec : String → Except String Desc) :
    List Project → List Mirror
  | [] => []
  | p :: ps =>
    match dec p.description with
    | .ok desc =>
      if desc.skip then interpretProjects use_http dec ps
      else
        let destination := if use_http then p.http_url_to_repo else p.ssh_url_to_repo
        { origin := desc.origin, destination := destination } ::
          interpretProjects use_http dec ps
    | .error _ => interpretProjects use_http dec ps

/-- The provider entry point `get_mirror_repos`: run the paginated fetch
loop starting at page 1, propagate any fatal error, and otherwise interpret
every accumulated project. -/
def get_mirror_repos (cfg : GitLab) (server : Nat → ServerReply)
    (dec : String → Except String Desc) : Except String (List Mirror) :=
  match (fetchLoop cfg server 1 FETCH_FUEL []).2 with
  | .error e => .error e
  | .ok projects => .ok (interpretProjects cfg.use_http dec projects)

/-- Per-project contribution to the mirror list (specification-side
restatement of one iteration of the interpretation loop): `none` when the
description fails to decode or asks to be skipped, otherwise exactly the
mirror the loop pushes. -/
def mirrorOfProject (use_http : Bool) (dec : String → Except String Desc)
    (p : Project) : Option Mirror :=
  match dec p.description with
  | .ok desc =>
    if desc.skip then none
    else some { origin := desc.origin,
                destination := if use_http then p.http_url_to_repo else p.ssh_url_to_repo }
  | .error _ => none

/-- Whether a project survives description interpretation: its description
decodes and does not set `skip`. -/
def keepProject (dec : String → Except String Desc) (p : Project) : Bool :=
  match dec p.description with
  | .ok desc => !desc.skip
  | .error _ => false

/-- Whether a reply lets the fetch loop continue to the next page: status
200, body decodes, and the `X-Next-Page` header is present with a value
that parses as a `u32`. -/
def okNextB : ServerReply → Bool
  | .resp 200 xnp (.ok _) => (getXNextPage xnp).isSome
  | _ => false

/-- Project list carried by a reply's successfully decoded body (empty for
every other kind of reply). -/
def pageBody (server : Nat → ServerReply) (page : Nat) : List Project :=
  match server page with
  | .resp _ _ (.ok ps) => ps
  | _ => []

/-- Sample configuration used by the concrete witnesses below. -/
def cfgW : GitLab :=
  { url := "https://gitlab.example.com", group := "grp",
    use_http := false, private_token := none }

/-- Sample description decoder used by the concrete witnesses: a finite
table of description texts standing in for `serde_yaml::from_str::<Desc>`
on those inputs. -/
def decW : String → Except String Desc := fun s =>
  if s = "origin: git@example.com:foo/a.git" then
    .ok { origin := "git@example.com:foo/a.git", skip := false }
  else if s = "origin: git@example.com:foo/b.git" then
    .ok { origin := "git@example.com:foo/b.git", skip := false }
  else if s = "origin: https://example.com/foo/c.git\nskip: true" then
    .ok { origin := "https://example.com/foo/c.git", skip := true }
  else .error "invalid yaml"

/-- Sample project whose description decodes with `skip` unset. -/
def projA : Project :=
  { description := "origin: git@example.com:foo/a.git",
    web_url := "https://gitlab.example.com/grp/a",
    ssh_url_to_repo := "git@gitlab.example.com:grp/a.git",
    http_url_to_repo := "https://gitlab.example.com/grp/a.git" }

/-- Second sample project whose description decodes with `skip` unset. -/
def projB : Project :=
  { description := "origin: git@example.com:foo/b.git",
    web_url := "https://gitlab.example.com/grp/b",
    ssh_url_to_repo := "git@gitlab.example.com:grp/b.git",
    http_url_to_repo := "https://gitlab.example.com/grp/b.git" }

/-- Sample project whose description decodes with `skip: true`. -/
def projSkip : Project :=
  { description := "origin: https://example.com/foo/c.git\nskip: true",
    web_url := "https://gitlab.example.com/grp/c",
    ssh_url_to_repo := "git@gitlab.example.com:grp/c.git",
    http_url_to_repo := "https://gitlab.example.com/grp/c.git" }

/-- Sample project whose description does not decode. -/
def projBad : Project :=
  { description := "not: valid: yaml: at: all",
    web_url := "https://gitlab.example.com/grp/d",
    ssh_url_to_repo := "git@gitlab.example.com:grp/d.git",
    http_url_to_repo := "https://gitlab.example.com/grp/d.git" }

/-- Server with a single page holding one project and no next-page header. -/
def serverOnePage : Nat → ServerReply := fun p =>
  if p = 1 then .resp 200 none (.ok [projA]) else .resp 200 none (.ok [])

/-- Server with a single page holding a valid, a malformed and a skipped
project. -/
def serverThree : Nat → ServerReply := fun p =>
  if p = 1 then .resp 200 none (.ok [projA, projBad, projSkip])
  else .resp 200 none (.ok [])

/-- Server whose first page carries `X-Next-Page: 0` (present, parseable,
but not positive) and whose second page is last. -/
def serverZeroHeader : Nat → ServerReply := fun p =>
  if p = 1 then .resp 200 (some "0") (.ok []) else .resp 200 none (.ok [])

/-- Server whose first page carries `X-Next-Page: 5` and whose second page
is last. -/
def serverPlainNext : Nat → ServerReply := fun p =>
  if p = 1 then .resp 200 (some "5") (.ok [projA]) else .resp 200 none (.ok [])

/-- Server that signals a next page on every response. -/
def serverAlwaysNext : Nat → ServerReply := fun _ =>
  .resp 200 (some "2") (.ok [])

/-- Server whose first page succeeds with a next-page signal and whose
second page answers 401. -/
def serverUnauthorized : Nat → ServerReply := fun p =>
  if p = 1 then .resp 200 (some "2") (.ok [projA])
  else if p = 2 then .resp 401 none (.ok [])
  else .resp 200 none (.ok [])

/-- Server whose first page body fails to decode. -/
def serverBadJson : Nat → ServerReply := fun p =>
  if p = 1 then .resp 200 none (.error "EOF while parsing a value")
  else .resp 200 none (.ok [])

/-- Server whose first page carries a present but unparseable
`X-Next-Page` value. -/
def serverBadHeader : Nat → ServerReply := fun p =>
  if p = 1 then .resp 200 (some "abc") (.ok [projA])
  else .resp 200 none (.ok [])

/-- Server with two pages of projects, the first signalling a next page. -/
def serverTwoPages : Nat → ServerReply := fun p =>
  if p = 1 then .resp 200 (some "2") (.ok [projA, projSkip])
  else if p = 2 then .resp 200 none (.ok [projB])
  else .resp 200 none (.ok [])

/-- The interpretation loop is the `filterMap` of its per-project
contribution: each project yields at most one mirror, in input order. -/
theorem interpretProjects_eq_filterMap (use_http : Bool)
    (dec : String → Except String Desc) (ps : List Project) :
    interpretProjects use_http dec ps = ps.filterMap (mirrorOfProject use_http dec) := by
  induction ps with
  | nil => rfl
  | cons p ps ih =>
    cases hd : dec p.description with
    | ok d =>
      cases hs : d.skip <;>
        simp [interpretProjects, List.filterMap_cons, mirrorOfProject, hd, hs, ih]
    | error e =>
      simp [interpretProjects, List.filterMap_cons, mirrorOfProject, hd, ih]

/-- A project contributes a mirror exactly when `keepProject` holds. -/
theorem mirrorOfProject_isSome (use_http : Bool)
    (dec : String → Except String Desc) (p : Project) :
    (mirrorOfProject use_http dec p).isSome = keepProject dec p := by
  cases hd : dec p.description with
  | ok d => cases hs : d.skip <;> simp [mirrorOfProject, keepProject, hd, hs]
  | error e => simp [mirrorOfProject, keepProject, hd]

/-- Splitting a list's length by the kept/dropped project count. -/
theorem countP_keep_add (dec : String → Except String Desc) (ps : List Project) :
    ps.countP (keepProject dec) + ps.countP (fun p => !(keepProject dec p)) = ps.length := by
  induction ps with
  | nil => rfl
  | cons p ps ih =>
    cases hk : keepProject dec p <;> simp [List.countP_cons, hk] <;> omega

/-- Unfolding of one iteration on a transport failure. -/
theorem fetchLoop_connFail {cfg : GitLab} {server : Nat → ServerReply}
    {page fuel : Nat} {acc : List Project} {cause : String}
    (hs : server page = .connFail cause) (hf : 0 < fuel) :
    fetchLoop cfg server page fuel acc = ([page], .error (connectMsg cfg page cause)) := by
  obtain ⟨f, rfl⟩ : ∃ f, fuel = f + 1 := ⟨fuel - 1, by omega⟩
  simp [fetchLoop, hs]

/-- Unfolding of one iteration on a non-200 status: the loop stops with the
401 message or the invalid-status message. -/
theorem fetchLoop_badStatus {cfg : GitLab} {server : Nat → ServerReply}
    {page fuel status : Nat} {acc : List Project}
    {xnp : Option String} {body : Except String (List Project)}
    (hs : server page = .resp status xnp body) (h200 : status ≠ 200) (hf : 0 < fuel) :
    fetchLoop cfg server page fuel acc =
      ([page], .error (if status = 401 then unauthorizedMsg cfg page
                       else invalidStatusMsg cfg status page)) := by
  obtain ⟨f, rfl⟩ : ∃ f, fuel = f + 1 := ⟨fuel - 1, by omega⟩
  by_cases h401 : status = 401 <;> simp [fetchLoop, hs, h200, h401]

/-- Unfolding of one iteration on a 200 page whose body fails to decode. -/
theorem fetchLoop_badJson {cfg : GitLab} {server : Nat → ServerReply}
    {page fuel : Nat} {acc : List Project} {xnp : Option String} {e : String}
    (hs : server page = .resp 200 xnp (.error e)) (hf : 0 < fuel) :
    fetchLoop cfg server page fuel acc = ([page], .error (jsonErrMsg e)) := by
  obtain ⟨f, rfl⟩ : ∃ f, fuel = f + 1 := ⟨fuel - 1, by omega⟩
  simp [fetchLoop, hs]

/-- Unfolding of one iteration on a 200 page with no (usable) next-page
header: the loop extends the accumulator and stops successfully. -/
theorem fetchLoop_lastPage {cfg : GitLab} {server : Nat → ServerReply}
    {page fuel : Nat} {acc projs : List Project} {xnp : Option String}
    (hs : server page = .resp 200 xnp (.ok projs))
    (hn : getXNextPage xnp = none) (hf : 0 < fuel) :
    fetchLoop cfg server page fuel acc = ([page], .ok (acc ++ projs)) := by
  obtain ⟨f, rfl⟩ : ∃ f, fuel = f + 1 := ⟨fuel - 1, by omega⟩
  simp [fetchLoop, hs, hn]

/-- Unfolding of one iteration on a 200 page with a usable next-page
header: the loop records the request and continues at `page + 1`. -/
theorem fetchLoop_step {cfg : GitLab} {server : Nat → ServerReply}
    {page fuel : Nat} {acc projs : List Project} {xnp : Option String}
    (hs : server page = .resp 200 xnp (.ok projs))
    (hn : (getXNextPage xnp).isSome = true) (hf : 0 < fuel) :
    fetchLoop cfg server page fuel acc =
      (page :: (fetchLoop cfg server (page + 1) (fuel - 1) (acc ++ projs)).1,
       (fetchLoop cfg server (page + 1) (fuel - 1) (acc ++ projs)).2) := by
  obtain ⟨f, rfl⟩ : ∃ f, fuel = f + 1 := ⟨fuel - 1, by omega⟩
  simp [fetchLoop, hs, hn]

/-- A reply that lets the loop continue is a 200 response with a decoded
body and a usable next-page header. -/
theorem okNextB_dest {r : ServerReply} (h : okNextB r = true) :
    ∃ xnp ps, r = .resp 200 xnp (.ok ps) ∧ (getXNextPage xnp).isSome = true := by
  match r with
  | .connFail c => simp [okNextB] at h
  | .resp status xnp (.error e) => simp [okNextB] at h
  | .resp status xnp (.ok ps) =>
    by_cases h200 : status = 200
    · subst h200
      exact ⟨xnp, ps, rfl, by simpa [okNextB] using h⟩
    · exfalso
      have : okNextB (.resp status xnp (.ok ps)) = false := by
        simp only [okNextB]
        split
        · rename_i heq
          cases heq
          exact absurd rfl h200
        · rfl
      rw [this] at h
      exact Bool.false_ne_true h

/-- Running the loop across `d` pages that all continue: the trace starts
with those `d` consecutive page numbers, and the rest of the run proceeds
from `page + d` with the pages' projects appended to the accumulator. -/
theorem fetchLoop_advance (cfg : GitLab) (server : Nat → ServerReply) :
    ∀ (d page fuel : Nat) (acc : List Project), d ≤ fuel →
    (∀ q, page ≤ q → q < page + d → okNextB (server q) = true) →
    ∃ P : List Project,
      fetchLoop cfg server page fuel acc =
        (List.range' page d ++
           (fetchLoop cfg server (page + d) (fuel - d) (acc ++ P)).1,
         (fetchLoop cfg server (page + d) (fuel - d) (acc ++ P)).2) := by
  intro d
  induction d with
  | zero =>
    intro page fuel acc _ _
    exact ⟨[], by simp⟩
  | succ d ih =>
    intro page fuel acc hdf hok
    have hp : okNextB (server page) = true := hok page le_rfl (by omega)
    obtain ⟨xnp, projs, hs, hn⟩ := okNextB_dest hp
    have hstep := @fetchLoop_step cfg server page fuel acc projs xnp hs hn (by omega)
    obtain ⟨P, hP⟩ := ih (page + 1) (fuel - 1) (acc ++ projs) (by omega)
      (fun q h1 h2 => hok q (by omega) (by omega))
    refine ⟨projs ++ P, ?_⟩
    have e1 : page + 1 + d = page + (d + 1) := by omega
    have e2 : fuel - 1 - d = fuel - (d + 1) := by omega
    have e3 : acc ++ projs ++ P = acc ++ (projs ++ P) := by
      rw [List.append_assoc]
    rw [hstep, hP, e1, e2, e3, List.range'_succ]
    simp

/-- The trace of requested pages is always a consecutive run starting at
the initial page, no longer than the fuel, and nonempty whenever at least
one iteration is allowed. -/
theorem fetchLoop_trace_range (cfg : GitLab) (server : Nat → ServerReply) :
    ∀ (fuel page : Nat) (acc : List Project),
    ∃ L, L ≤ fuel ∧ (fetchLoop cfg server page fuel acc).1 = List.range' page L ∧
      (0 < fuel → 0 < L) := by
  intro fuel
  induction fuel with
  | zero => intro page acc; exact ⟨0, le_rfl, rfl, by omega⟩
  | succ fuel ih =>
    intro page acc
    cases hs : server page with
    | connFail cause =>
      exact ⟨1, by omega, by rw [fetchLoop_connFail hs (by omega)]; rfl, by omega⟩
    | resp status xnp body =>
      by_cases h200 : status = 200
      · subst h200
        cases body with
        | error e =>
          exact ⟨1, by omega, by rw [fetchLoop_badJson hs (by omega)]; rfl, by omega⟩
        | ok projs =>
          cases hn : getXNextPage xnp with
          | none =>
            exact ⟨1, by omega, by rw [fetchLoop_lastPage hs hn (by omega)]; rfl, by omega⟩
          | some n =>
            obtain ⟨L, hL, htr, _⟩ := ih (page + 1) (acc ++ projs)
            refine ⟨L + 1, by omega, ?_, by omega⟩
            rw [fetchLoop_step hs (by simp [hn]) (by omega)]
            simpa [List.range'_succ] using htr
      · exact ⟨1, by omega, by rw [fetchLoop_badStatus hs h200 (by omega)]; rfl, by omega⟩

/-- When the loop returns successfully, the accumulated project list is the
initial accumulator followed by the bodies of the requested pages, in
request order. -/
theorem fetchLoop_ok_join (cfg : GitLab) (server : Nat → ServerReply) :
    ∀ (fuel page : Nat) (acc ps : List Project),
    (fetchLoop cfg server page fuel acc).2 = .ok ps →
    ps = acc ++ ((fetchLoop cfg server page fuel acc).1.map (pageBody server)).flatten := by
  intro fuel
  induction fuel with
  | zero =>
    intro page acc ps h
    simp only [fetchLoop] at h ⊢
    cases h
    simp
  | succ fuel ih =>
    intro page acc ps h
    cases hs : server page with
    | connFail cause =>
      rw [fetchLoop_connFail hs (by omega)] at h ⊢
      cases h
    | resp status xnp body =>
      by_cases h200 : status = 200
      · subst h200
        cases body with
        | error e =>
          rw [fetchLoop_badJson hs (by omega)] at h ⊢
          cases h
        | ok projs =>
          cases hn : getXNextPage xnp with
          | none =>
            rw [fetchLoop_lastPage hs hn (by omega)] at h ⊢
            cases h
            simp [pageBody, hs]
          | some n =>
            rw [fetchLoop_step hs (by simp [hn]) (by omega)] at h ⊢
            have := ih (page + 1) (acc ++ projs) ps h
            simpa [pageBody, hs] using this
      · rw [fetchLoop_badStatus hs h200 (by omega)] at h ⊢
        cases h

/-- Against a server that always allows continuation, the loop runs for
exactly its fuel's worth of iterations and still ends in success. -/
theorem fetchLoop_allNext {cfg : GitLab} {server : Nat → ServerReply}
    (h : ∀ p, okNextB (server p) = true) :
    ∀ (fuel page : Nat) (acc : List Project),
    (fetchLoop cfg server page fuel acc).1.length = fuel ∧
      ∃ ps, (fetchLoop cfg server page fuel acc).2 = .ok ps := by
  intro fuel
  induction fuel with
  | zero => intro page acc; exact ⟨rfl, acc, rfl⟩
  | succ fuel ih =>
    intro page acc
    obtain ⟨xnp, projs, hs, hn⟩ := okNextB_dest (h page)
    rw [@fetchLoop_step cfg server page (fuel + 1) acc projs xnp hs hn (by omega)]
    obtain ⟨hlen, ps, hok⟩ := ih (page + 1) (acc ++ projs)
    exact ⟨by simpa using hlen, ps, hok⟩

/-- Against a server that always allows continuation and always returns an
empty page body, the loop returns its accumulator unchanged. -/
theorem fetchLoop_allNextEmpty {cfg : GitLab} {server : Nat → ServerReply}
    (h : ∀ p, okNextB (server p) = true) (he : ∀ p, pageBody server p = []) :
    ∀ (fuel page : Nat) (acc : List Project),
    (fetchLoop cfg server page fuel acc).2 = .ok acc := by
  intro fuel
  induction fuel with
  | zero => intro page acc; rfl
  | succ fuel ih =>
    intro page acc
    obtain ⟨xnp, projs, hs, hn⟩ := okNextB_dest (h page)
    have hpb : projs = [] := by
      have := he page
      rw [pageBody, hs] at this
      exact this
    rw [@fetchLoop_step cfg server page (fuel + 1) acc projs xnp hs hn (by omega)]
    subst hpb
    rw [List.append_nil]
    exact ih (page + 1) acc

/-- Against a server that always continues with empty page bodies, the
whole call succeeds with an empty mirror list. -/
theorem get_mirror_repos_allNextEmpty {cfg : GitLab} {server : Nat → ServerReply}
    {dec : String → Except String Desc}
    (h1 : ∀ p, okNextB (server p) = true) (h2 : ∀ p, pageBody server p = []) :
    get_mirror_repos cfg server dec = .ok [] := by
  have h3 := @fetchLoop_allNextEmpty cfg server h1 h2 FETCH_FUEL 1 []
  unfold get_mirror_repos
  rw [h3]
  rfl

/-- The 401 error text contains the page URL. -/
theorem unauthorizedMsg_has_url (cfg : GitLab) (page : Nat) :
    ∃ a b, unauthorizedMsg cfg page = a ++ pageUrl cfg page ++ b :=
  ⟨"API call received unautorized (" ++ statusDisplay 401 ++ ") for: ",
   ". Please make sure the `GITLAB_PRIVATE_TOKEN` environment variable is set.",
   rfl⟩

/-- The 401 error text contains the name of the access-token environment
variable, i.e. the credential hint. -/
theorem unauthorizedMsg_has_hint (cfg : GitLab) (page : Nat) :
    ∃ a b, unauthorizedMsg cfg page = a ++ "GITLAB_PRIVATE_TOKEN" ++ b := by
  refine ⟨"API call received unautorized (" ++ statusDisplay 401 ++ ") for: " ++
    pageUrl cfg page ++ ". Please make sure the `",
    "` environment variable is set.", ?_⟩
  have hsplit : (". Please make sure the `GITLAB_PRIVATE_TOKEN` environment variable is set." : String)
      = ". Please make sure the `" ++ "GITLAB_PRIVATE_TOKEN" ++ "` environment variable is set." := by
    decide
  rw [unauthorizedMsg, hsplit]
  simp [String.append_assoc]

/-- The invalid-status error text contains the page URL. -/
theorem invalidStatusMsg_has_url (cfg : GitLab) (status page : Nat) :
    ∃ a b, invalidStatusMsg cfg status page = a ++ pageUrl cfg page ++ b := by
  refine ⟨"API call received invalid status (" ++ statusDisplay status ++ ") for : ",
    "", ?_⟩
  rw [invalidStatusMsg, String.append_empty]

/-- The invalid-status error text names the status code. -/
theorem invalidStatusMsg_has_status (cfg : GitLab) (status page : Nat) :
    ∃ a b, invalidStatusMsg cfg status page = a ++ toString status ++ b := by
  refine ⟨"API call received invalid status (",
    " " ++ ((canonicalReason status).getD "<unknown status code>") ++
      (") for : " ++ pageUrl cfg page), ?_⟩
  rw [invalidStatusMsg, statusDisplay]
  simp [String.append_assoc]

/-- The JSON-decode error text carries the underlying cause. -/
theorem jsonErrMsg_has_cause (cause : String) :
    ∃ a b, jsonErrMsg cause = a ++ cause ++ b :=
  ⟨"Unable to parse response as JSON (", ")", rfl⟩

/-- The page URL regrouped around its query string: every request carries
`per_page=100` and the current page number. -/
theorem pageUrl_split (cfg : GitLab) (page : Nat) :
    pageUrl cfg page =
      (cfg.url ++ "/api/v4/groups/" ++ cfg.group ++ "/projects?") ++
        ("per_page=100&page=" ++ toString page) := by
  have h100 : toString PER_PAGE = "100" := by decide
  have hlit : ∀ t : String,
      "/projects?per_page=" ++ ("100" ++ ("&page=" ++ t)) =
        "/projects?" ++ ("per_page=100&page=" ++ t) := by
    intro t
    rw [← String.append_assoc, ← String.append_assoc, ← String.append_assoc]
    exact congrArg (fun s => s ++ t) (by decide)
  rw [pageUrl, h100]
  simp only [String.append_assoc]
  rw [hlit]

/-- Specialisation of `fetchLoop_advance` to the provider's initial call:
if every page before `k` allows continuation, the run reaches page `k` with
some accumulated prefix `P`. -/
theorem fetchLoop_reach {cfg : GitLab} {server : Nat → ServerReply} {k : Nat}
    (h1 : 1 ≤ k) (hk : k ≤ FETCH_FUEL)
    (hpre : ∀ q, 1 ≤ q → q < k → okNextB (server q) = true) :
    ∃ P : List Project, fetchLoop cfg server 1 FETCH_FUEL [] =
      (List.range' 1 (k - 1) ++
         (fetchLoop cfg server k (FETCH_FUEL - (k - 1)) P).1,
       (fetchLoop cfg server k (FETCH_FUEL - (k - 1)) P).2) := by
  obtain ⟨P, hP⟩ := fetchLoop_advance cfg server (k - 1) 1 FETCH_FUEL []
    (by have : (4294967294 : Nat) = FETCH_FUEL := rfl; omega)
    (fun q hq1 hq2 => hpre q hq1 (by omega))
  have e1 : 1 + (k - 1) = k := by omega
  rw [e1, List.nil_append] at hP
  exact ⟨P, hP⟩

/-- If page `k` is reached (strictly before the iteration cap), answers 200
with a decodable body and a usable next-page header, then page `k + 1` is
requested. -/
theorem fetchLoop_next_requested {cfg : GitLab} {server : Nat → ServerReply}
    {k : Nat} {xnp : Option String} {projs : List Project}
    (h1 : 1 ≤ k) (hk : k < FETCH_FUEL)
    (hpre : ∀ q, 1 ≤ q → q < k → okNextB (server q) = true)
    (hs : server k = .resp 200 xnp (.ok projs))
    (hn : (getXNextPage xnp).isSome = true) :
    (k + 1) ∈ (fetchLoop cfg server 1 FETCH_FUEL []).1 := by
  obtain ⟨P, hP⟩ := fetchLoop_reach h1 (by omega) hpre
  have hstep := @fetchLoop_step cfg server k (FETCH_FUEL - (k - 1)) P projs xnp hs hn
    (by have : (4294967294 : Nat) = FETCH_FUEL := rfl; omega)
  obtain ⟨L, _, htr, hpos⟩ := fetchLoop_trace_range cfg server
    (FETCH_FUEL - (k - 1) - 1) (k + 1) (P ++ projs)
  have hL : 0 < L := hpos (by have : (4294967294 : Nat) = FETCH_FUEL := rfl; omega)
  rw [hP, hstep]
  simp only [List.mem_append, List.mem_cons]
  right; right
  rw [htr]
  exact List.mem_range'_1.mpr ⟨le_rfl, by omega⟩

/-- C1: for every project whose description decodes to a `Desc` with an
origin and with `skip` false (absence of the key yields the default
`false` through the decoder), `get_mirror_repos` includes in its result
exactly the mirror whose origin is the decoded origin and whose
destination is the project's `http_url_to_repo` when `use_http` is set and
its `ssh_url_to_repo` otherwise: the output is precisely the `filterMap`
of the per-project contribution, and this project's contribution is that
mirror. -/
theorem gitlab_c1_valid_description_yields_mirror
    (cfg : GitLab) (server : Nat → ServerReply) (dec : String → Except String Desc)
    (ps : List Project) (p : Project) (d : Desc)
    (hfetch : (fetchLoop cfg server 1 FETCH_FUEL []).2 = .ok ps)
    (hmem : p ∈ ps) (hdec : dec p.description = .ok d) (hskip : d.skip = false) :
    get_mirror_repos cfg server dec =
      .ok (ps.filterMap (mirrorOfProject cfg.use_http dec)) ∧
    mirrorOfProject cfg.use_http dec p =
      some { origin := d.origin,
             destination := if cfg.use_http then p.http_url_to_repo
                            else p.ssh_url_to_repo } ∧
    ({ origin := d.origin,
       destination := if cfg.use_http then p.http_url_to_repo
                      else p.ssh_url_to_repo } : Mirror) ∈
      ps.filterMap (mirrorOfProject cfg.use_http dec) := by
  have hm : mirrorOfProject cfg.use_http dec p =
      some { origin := d.origin,
             destination := if cfg.use_http then p.http_url_to_repo
                            else p.ssh_url_to_repo } := by
    simp [mirrorOfProject, hdec, hskip]
  refine ⟨?_, hm, List.mem_filterMap.mpr ⟨p, hmem, hm⟩⟩
  simp only [get_mirror_repos, hfetch, interpretProjects_eq_filterMap]

/-- Witness for C1 at a concrete one-page server. -/
theorem gitlab_c1_valid_description_yields_mirror_witness :
    get_mirror_repos cfgW serverOnePage decW =
      .ok ([projA].filterMap (mirrorOfProject cfgW.use_http decW)) ∧
    mirrorOfProject cfgW.use_http decW projA =
      some { origin := "git@example.com:foo/a.git",
             destination := if cfgW.use_http then projA.http_url_to_repo
                            else projA.ssh_url_to_repo } ∧
    ({ origin := "git@example.com:foo/a.git",
       destination := if cfgW.use_http then projA.http_url_to_repo
                      else projA.ssh_url_to_repo } : Mirror) ∈
      [projA].filterMap (mirrorOfProject cfgW.use_http decW) :=
  gitlab_c1_valid_description_yields_mirror cfgW serverOnePage decW [projA] projA
    { origin := "git@example.com:foo/a.git", skip := false }
    (by decide) (by decide) (by decide) (by decide)

/-- C2: whenever the paginated fetch succeeds with project list `ps`, the
call as a whole succeeds — a project whose description fails to decode or
decodes with `skip` set never fails the call, it is merely absent from the
output — and the returned mirror list has length `ps.length` minus the
number of skipped-or-malformed projects. -/
theorem gitlab_c2_bad_descriptions_skipped
    (cfg : GitLab) (server : Nat → ServerReply) (dec : String → Except String Desc)
    (ps : List Project)
    (hfetch : (fetchLoop cfg server 1 FETCH_FUEL []).2 = .ok ps) :
    get_mirror_repos cfg server dec =
      .ok (ps.filterMap (mirrorOfProject cfg.use_http dec)) ∧
    (ps.filterMap (mirrorOfProject cfg.use_http dec)).length
      = ps.length - ps.countP (fun p => !(keepProject dec p)) := by
  constructor
  · simp only [get_mirror_repos, hfetch, interpretProjects_eq_filterMap]
  · have h1 : (ps.filterMap (mirrorOfProject cfg.use_http dec)).length
        = ps.countP (fun p => (mirrorOfProject cfg.use_http dec p).isSome) :=
      List.length_filterMap_eq_countP _ _
    have h2 : ps.countP (fun p => (mirrorOfProject cfg.use_http dec p).isSome)
        = ps.countP (keepProject dec) := by
      induction ps with
      | nil => rfl
      | cons p ps ih =>
        simp [List.countP_cons, mirrorOfProject_isSome, ih]
    have h3 := countP_keep_add dec ps
    omega

/-- Witness for C2: one page with a valid, a malformed and a skipped
project produces one mirror, three minus two. -/
theorem gitlab_c2_bad_descriptions_skipped_witness :
    get_mirror_repos cfgW serverThree decW =
      .ok ([projA, projBad, projSkip].filterMap (mirrorOfProject cfgW.use_http decW)) ∧
    ([projA, projBad, projSkip].filterMap (mirrorOfProject cfgW.use_http decW)).length
      = [projA, projBad, projSkip].length -
          [projA, projBad, projSkip].countP (fun p => !(keepProject decW p)) :=
  gitlab_c2_bad_descriptions_skipped cfgW serverThree decW [projA, projBad, projSkip]
    (by decide)

/-- C7: the provider either fails as a whole — an error outcome delivers no
mirror list at all — or returns the interpretation of the complete fetched
project list; no partial mirror list is ever delivered. -/
theorem gitlab_c7_no_partial_result
    (cfg : GitLab) (server : Nat → ServerReply) (dec : String → Except String Desc) :
    (∃ e, get_mirror_repos cfg server dec = .error e ∧
      ∀ ms, get_mirror_repos cfg server dec ≠ .ok ms) ∨
    (∃ ps, (fetchLoop cfg server 1 FETCH_FUEL []).2 = .ok ps ∧
      get_mirror_repos cfg server dec = .ok (interpretProjects cfg.use_http dec ps)) := by
  cases hres : (fetchLoop cfg server 1 FETCH_FUEL []).2 with
  | error e =>
    left
    exact ⟨e, by simp [get_mirror_repos, hres], by simp [get_mirror_repos, hres]⟩
  | ok ps =>
    right
    exact ⟨ps, rfl, by simp [get_mirror_repos, hres]⟩

/-- C9: whatever the server answers — even one that always signals another
page — the page-fetch loop performs at most `FETCH_FUEL` iterations, i.e.
the trace of issued requests is bounded. -/
theorem gitlab_c9_loop_bounded (cfg : GitLab) (server : Nat → ServerReply) :
    (fetchLoop cfg server 1 FETCH_FUEL []).1.length ≤ FETCH_FUEL := by
  obtain ⟨L, hL, htr, _⟩ := fetchLoop_trace_range cfg server FETCH_FUEL 1 []
  rw [htr, List.length_range']
  exact hL

/-- Appending the reached page to the run-up prefix closes the consecutive
range. -/
theorem range_concat_page {k : Nat} (h1 : 1 ≤ k) :
    List.range' 1 (k - 1) ++ [k] = List.range' 1 k := by
  have h := List.range'_1_concat 1 (k - 1)
  rw [show (k - 1) + 1 = k by omega] at h
  rw [show 1 + (k - 1) = k by omega] at h
  exact h.symm

/-- Counterexample to C3 as stated: on `serverZeroHeader` the first page
answers 200 with `X-Next-Page: 0` — present, non-empty, parseable, but not
a positive integer — and the loop nevertheless issues a request for page 2
(the trace is `[1, 2]`), because the source only checks that the typed
header is present and parses as a `u32`, never that it is positive. -/
theorem gitlab_c3_cex_zero_header_requests_next :
    (fetchLoop cfgW serverZeroHeader 1 FETCH_FUEL []).1 = [1, 2] ∧
    getXNextPage (some "0") = some 0 := by
  constructor <;> decide

/-- C3 (amended): for a requested page `k` (reached before the iteration
cap) whose response has status 200 and a decodable body, a request for page
`k + 1` is issued if and only if the `X-Next-Page` header is present and
its value parses as a `u32` (zero included; an absent header, or a present
but unparseable value, counts as no next page); and with no usable header
the loop stops after page `k` regardless of the body's size. -/
theorem gitlab_c3_next_request_iff_header_parses
    (cfg : GitLab) (server : Nat → ServerReply) (k : Nat)
    (xnp : Option String) (projs : List Project)
    (h1 : 1 ≤ k) (hk : k < FETCH_FUEL)
    (hpre : ∀ q, 1 ≤ q → q < k → okNextB (server q) = true)
    (hs : server k = .resp 200 xnp (.ok projs)) :
    ((k + 1) ∈ (fetchLoop cfg server 1 FETCH_FUEL []).1 ↔
      (getXNextPage xnp).isSome = true) ∧
    (getXNextPage xnp = none →
      ∃ ps, fetchLoop cfg server 1 FETCH_FUEL [] = (List.range' 1 k, .ok ps)) := by
  obtain ⟨P, hP⟩ := fetchLoop_reach h1 (by omega) hpre
  cases hn : getXNextPage xnp with
  | none =>
    have hstop := @fetchLoop_lastPage cfg server k (FETCH_FUEL - (k - 1)) P projs xnp
      hs hn (by omega)
    have hfull : fetchLoop cfg server 1 FETCH_FUEL [] =
        (List.range' 1 k, .ok (P ++ projs)) := by
      rw [hP, hstop]
      rw [Prod.mk.injEq]
      exact ⟨range_concat_page h1, rfl⟩
    constructor
    · rw [hfull]
      simp only [List.mem_range'_1]
      constructor
      · intro h
        omega
      · intro h
        cases h
    · intro _
      exact ⟨P ++ projs, hfull⟩
  | some n =>
    constructor
    · constructor
      · intro _
        rfl
      · intro _
        exact fetchLoop_next_requested h1 hk hpre hs (by rw [hn]; rfl)
    · intro h
      simp at h

/-- Witness for the amended C3: on `serverPlainNext` page 1 carries
`X-Next-Page: 5`, and indeed page 2 is requested. -/
theorem gitlab_c3_next_request_iff_header_parses_witness :
    ((1 + 1) ∈ (fetchLoop cfgW serverPlainNext 1 FETCH_FUEL []).1 ↔
      (getXNextPage (some "5")).isSome = true) ∧
    (getXNextPage (some "5") = none →
      ∃ ps, fetchLoop cfgW serverPlainNext 1 FETCH_FUEL [] =
        (List.range' 1 1, .ok ps)) :=
  gitlab_c3_next_request_iff_header_parses cfgW serverPlainNext 1 (some "5") [projA]
    (by decide) (by decide) (fun q hq1 hq2 => absurd (lt_of_le_of_lt hq1 hq2) (by omega))
    (by decide)

/-- Counterexample to C4 as stated: against `serverAlwaysNext`, which
signals a next page on every response, `get_mirror_repos` terminates with a
*successful* empty result — the `for page in 1..u32::MAX` range simply runs
out and the accumulated projects fall through to interpretation — rather
than surfacing a distinct internal error as the claim requires. -/
theorem gitlab_c4_cex_cap_returns_ok :
    get_mirror_repos cfgW serverAlwaysNext decW = .ok [] :=
  get_mirror_repos_allNextEmpty (fun _ => rfl) (fun _ => rfl)

/-- C4 (amended): if the server signals a next page on every response, the
fetch loop stops at the explicit iteration cap — it issues exactly
`FETCH_FUEL` requests, one per page of the `for` range — and the call then
returns the accumulated result as a *success*; no distinct internal error
is produced. -/
theorem gitlab_c4_cap_is_success
    (cfg : GitLab) (server : Nat → ServerReply) (dec : String → Except String Desc)
    (h : ∀ p, okNextB (server p) = true) :
    (fetchLoop cfg server 1 FETCH_FUEL []).1.length = FETCH_FUEL ∧
    ∃ ms, get_mirror_repos cfg server dec = .ok ms := by
  obtain ⟨hlen, ps, hok⟩ := @fetchLoop_allNext cfg server h FETCH_FUEL 1 []
  exact ⟨hlen, interpretProjects cfg.use_http dec ps, by simp [get_mirror_repos, hok]⟩

/-- Witness for the amended C4 at the concrete always-next server. -/
theorem gitlab_c4_cap_is_success_witness :
    (fetchLoop cfgW serverAlwaysNext 1 FETCH_FUEL []).1.length = FETCH_FUEL ∧
    ∃ ms, get_mirror_repos cfgW serverAlwaysNext decW = .ok ms :=
  gitlab_c4_cap_is_success cfgW serverAlwaysNext decW (fun _ => rfl)

/-- C5: if every page before `k` lets the loop continue and page `k`
answers with a non-200 status, the whole call fails — regardless of how
many pages were fetched successfully before — with the unauthorized
message when the status is 401 (a message that names the page URL and
hints at the `GITLAB_PRIVATE_TOKEN` credential) and with the
invalid-status message otherwise (naming that status and the page URL). -/
theorem gitlab_c5_non_200_fails_call
    (cfg : GitLab) (server : Nat → ServerReply) (dec : String → Except String Desc)
    (k status : Nat) (xnp : Option String) (body : Except String (List Project))
    (h1 : 1 ≤ k) (hk : k ≤ FETCH_FUEL)
    (hpre : ∀ q, 1 ≤ q → q < k → okNextB (server q) = true)
    (hs : server k = .resp status xnp body) (h200 : status ≠ 200) :
    get_mirror_repos cfg server dec =
      .error (if status = 401 then unauthorizedMsg cfg k
              else invalidStatusMsg cfg status k) ∧
    (∃ a b, unauthorizedMsg cfg k = a ++ pageUrl cfg k ++ b) ∧
    (∃ a b, unauthorizedMsg cfg k = a ++ "GITLAB_PRIVATE_TOKEN" ++ b) ∧
    (∃ a b, invalidStatusMsg cfg status k = a ++ pageUrl cfg k ++ b) ∧
    (∃ a b, invalidStatusMsg cfg status k = a ++ toString status ++ b) := by
  refine ⟨?_, unauthorizedMsg_has_url cfg k, unauthorizedMsg_has_hint cfg k,
    invalidStatusMsg_has_url cfg status k, invalidStatusMsg_has_status cfg status k⟩
  obtain ⟨P, hP⟩ := fetchLoop_reach h1 hk hpre
  have hstop := @fetchLoop_badStatus cfg server k (FETCH_FUEL - (k - 1)) status P xnp body
    hs h200 (by omega)
  have h2 : (fetchLoop cfg server 1 FETCH_FUEL []).2 =
      .error (if status = 401 then unauthorizedMsg cfg k
              else invalidStatusMsg cfg status k) := by
    rw [hP]
    show (fetchLoop cfg server k (FETCH_FUEL - (k - 1)) P).2 = _
    rw [hstop]
  simp only [get_mirror_repos, h2]

/-- Witness for C5: page 1 succeeds with a next-page signal and page 2
answers 401. -/
theorem gitlab_c5_non_200_fails_call_witness :
    get_mirror_repos cfgW serverUnauthorized decW =
      .error (if 401 = 401 then unauthorizedMsg cfgW 2
              else invalidStatusMsg cfgW 401 2) ∧
    (∃ a b, unauthorizedMsg cfgW 2 = a ++ pageUrl cfgW 2 ++ b) ∧
    (∃ a b, unauthorizedMsg cfgW 2 = a ++ "GITLAB_PRIVATE_TOKEN" ++ b) ∧
    (∃ a b, invalidStatusMsg cfgW 401 2 = a ++ pageUrl cfgW 2 ++ b) ∧
    (∃ a b, invalidStatusMsg cfgW 401 2 = a ++ toString 401 ++ b) :=
  gitlab_c5_non_200_fails_call cfgW serverUnauthorized decW 2 401 none (.ok [])
    (by decide) (by decide)
    (fun q hq1 hq2 => by
      have hq : q = 1 := by omega
      subst hq
      decide)
    (by decide) (by decide)

/-- C6: if every page before `k` lets the loop continue and page `k`
answers 200 with a body that fails to decode as a project sequence, the
entire call fails with the JSON error message, which carries the
underlying decode cause; there is no per-element recovery. -/
theorem gitlab_c6_malformed_page_fails_call
    (cfg : GitLab) (server : Nat → ServerReply) (dec : String → Except String Desc)
    (k : Nat) (xnp : Option String) (cause : String)
    (h1 : 1 ≤ k) (hk : k ≤ FETCH_FUEL)
    (hpre : ∀ q, 1 ≤ q → q < k → okNextB (server q) = true)
    (hs : server k = .resp 200 xnp (.error cause)) :
    get_mirror_repos cfg server dec = .error (jsonErrMsg cause) ∧
    ∃ a b, jsonErrMsg cause = a ++ cause ++ b := by
  refine ⟨?_, jsonErrMsg_has_cause cause⟩
  obtain ⟨P, hP⟩ := fetchLoop_reach h1 hk hpre
  have hstop := @fetchLoop_badJson cfg server k (FETCH_FUEL - (k - 1)) P xnp cause
    hs (by omega)
  have h2 : (fetchLoop cfg server 1 FETCH_FUEL []).2 = .error (jsonErrMsg cause) := by
    rw [hP]
    show (fetchLoop cfg server k (FETCH_FUEL - (k - 1)) P).2 = _
    rw [hstop]
  simp only [get_mirror_repos, h2]

/-- Witness for C6: the first page's body fails to decode. -/
theorem gitlab_c6_malformed_page_fails_call_witness :
    get_mirror_repos cfgW serverBadJson decW =
      .error (jsonErrMsg "EOF while parsing a value") ∧
    ∃ a b, jsonErrMsg "EOF while parsing a value" =
      a ++ "EOF while parsing a value" ++ b :=
  gitlab_c6_malformed_page_fails_call cfgW serverBadJson decW 1 none
    "EOF while parsing a value"
    (by decide) (by decide)
    (fun q hq1 hq2 => absurd (lt_of_le_of_lt hq1 hq2) (by omega))
    (by decide)

/-- Counterexample to C8 as stated: on `serverBadHeader` the first page's
response *includes* the next-page header (value `"abc"`), yet no further
request is issued — the trace is just `[1]` — because hyper's typed getter
treats a present but unparseable value as absent. -/
theorem gitlab_c8_cex_unparseable_header_stops :
    (fetchLoop cfgW serverBadHeader 1 FETCH_FUEL []).1 = [1] ∧
    getXNextPage (some "abc") = none := by
  constructor <;> decide

/-- C8 (amended): for a requested page `k` (before the iteration cap) whose
200 response has a decodable body and a next-page header whose value parses
as a `u32`, exactly one further request is issued and it is for page
`k + 1`: the full request trace is a consecutive run starting at page 1,
page `k + 1` occurs in it exactly once, and its URL carries `per_page=100`
and the incremented page number. -/
theorem gitlab_c8_next_page_increments
    (cfg : GitLab) (server : Nat → ServerReply) (k n : Nat)
    (xnp : Option String) (projs : List Project)
    (h1 : 1 ≤ k) (hk : k < FETCH_FUEL)
    (hpre : ∀ q, 1 ≤ q → q < k → okNextB (server q) = true)
    (hs : server k = .resp 200 xnp (.ok projs))
    (hn : getXNextPage xnp = some n) :
    (∃ L, (fetchLoop cfg server 1 FETCH_FUEL []).1 = List.range' 1 L) ∧
    (k + 1) ∈ (fetchLoop cfg server 1 FETCH_FUEL []).1 ∧
    (fetchLoop cfg server 1 FETCH_FUEL []).1.count (k + 1) = 1 ∧
    pageUrl cfg (k + 1) =
      (cfg.url ++ "/api/v4/groups/" ++ cfg.group ++ "/projects?") ++
        ("per_page=100&page=" ++ toString (k + 1)) := by
  obtain ⟨L, hL, htr, hpos⟩ := fetchLoop_trace_range cfg server FETCH_FUEL 1 []
  have hmem : (k + 1) ∈ (fetchLoop cfg server 1 FETCH_FUEL []).1 :=
    fetchLoop_next_requested h1 hk hpre hs (by rw [hn]; rfl)
  refine ⟨⟨L, htr⟩, hmem, ?_, pageUrl_split cfg (k + 1)⟩
  rw [htr] at hmem ⊢
  exact List.count_eq_one_of_mem (List.nodup_range' 1 L) hmem

/-- Witness for the amended C8: on `serverPlainNext`, after page 1 the
single further request is page 2. -/
theorem gitlab_c8_next_page_increments_witness :
    (∃ L, (fetchLoop cfgW serverPlainNext 1 FETCH_FUEL []).1 = List.range' 1 L) ∧
    (1 + 1) ∈ (fetchLoop cfgW serverPlainNext 1 FETCH_FUEL []).1 ∧
    (fetchLoop cfgW serverPlainNext 1 FETCH_FUEL []).1.count (1 + 1) = 1 ∧
    pageUrl cfgW (1 + 1) =
      (cfgW.url ++ "/api/v4/groups/" ++ cfgW.group ++ "/projects?") ++
        ("per_page=100&page=" ++ toString (1 + 1)) :=
  gitlab_c8_next_page_increments cfgW serverPlainNext 1 5 (some "5") [projA]
    (by decide) (by decide)
    (fun q hq1 hq2 => absurd (lt_of_le_of_lt hq1 hq2) (by omega))
    (by decide) (by decide)

/-- C10: a successful mirror list is the order-preserving image of the
fetched pages: the bodies of the requested pages concatenated in request
order, then filtered project by project, skipped projects removed without
reordering the rest. -/
theorem gitlab_c10_order_preserved
    (cfg : GitLab) (server : Nat → ServerReply) (dec : String → Except String Desc)
    (ms : List Mirror) (h : get_mirror_repos cfg server dec = .ok ms) :
    ms = (((fetchLoop cfg server 1 FETCH_FUEL []).1.map (pageBody server)).flatten).filterMap
          (mirrorOfProject cfg.use_http dec) := by
  cases hres : (fetchLoop cfg server 1 FETCH_FUEL []).2 with
  | error e =>
    have h2 : get_mirror_repos cfg server dec = .error e := by
      simp only [get_mirror_repos, hres]
    rw [h2] at h
    simp at h
  | ok ps =>
    have h2 : get_mirror_repos cfg server dec =
        .ok (interpretProjects cfg.use_http dec ps) := by
      simp only [get_mirror_repos, hres]
    rw [h2] at h
    have hms : interpretProjects cfg.use_http dec ps = ms := by
      injection h
    have hj := fetchLoop_ok_join cfg server FETCH_FUEL 1 [] ps hres
    rw [← hms, interpretProjects_eq_filterMap, hj]
    rw [List.nil_append]

/-- Witness for C10 at a two-page server: the mirrors for the surviving
projects appear in page order. -/
theorem gitlab_c10_order_preserved_witness :
    ([{ origin := "git@example.com:foo/a.git",
        destination := "git@gitlab.example.com:grp/a.git" },
      { origin := "git@example.com:foo/b.git",
        destination := "git@gitlab.example.com:grp/b.git" }] : List Mirror) =
      (((fetchLoop cfgW serverTwoPages 1 FETCH_FUEL []).1.map
          (pageBody serverTwoPages)).flatten).filterMap
        (mirrorOfProject cfgW.use_http decW) :=
  gitlab_c10_order_preserved cfgW serverTwoPages decW
    [{ origin := "git@example.com:foo/a.git",
       destination := "git@gitlab.example.com:grp/a.git" },
     { origin := "git@example.com:foo/b.git",
       destination := "git@gitlab.example.com:grp/b.git" }]
    (by decide)
